import Mathlib

/-!  Shallow embedding of `src/fastlivo/src/map_builder/imu_processor.cpp`
(namespace `livo`, class `IMUProcessor`): the inertial-state propagation and
point-cloud motion-compensation ("deskew") engine of the repository.

Scalars are modelled as `ℚ` (the C++ code computes with `double`; the claims
under study are about control flow and exact algebraic form, not rounding),
3-vectors as `Fin 3 → ℚ`, rotation matrices as 3×3 rational matrices.

External collaborators that are not part of the repository's source are kept
as parameters or are modelled from the spec:
* `kf::IESKF::predict` (the estimator's forward prediction, spec §4.4) is an
  arbitrary function argument `pf : PredictFn`;
* `Sophus::SO3d::exp` (the rotational exponential) is an arbitrary function
  argument `E : SO3Exp`;
* `Eigen::Quaterniond::FromTwoVectors` is an arbitrary function argument;
* the estimator state's `initG` is modelled from the spec (see `State.initG`).
-/

/- Mathlib marks the core `Rat` arithmetic operations `[irreducible]` so that
proofs go through `norm_num` instead of unfolding.  The definitions below are
executable and are exercised on concrete inputs by `decide`; re-enabling
unfolding of these operations lets that evaluation happen.  This does not
affect soundness: reducibility attributes are invisible to the kernel. -/
set_option allowUnsafeReducibility true

set_option maxRecDepth 8192

set_option maxHeartbeats 2000000

attribute [local semireducible] Rat.add Rat.mul Rat.div Rat.sub Rat.neg Rat.inv

namespace Livo

abbrev Vec3 := Fin 3 → ℚ

abbrev Mat3 := Matrix (Fin 3) (Fin 3) ℚ

abbrev Mat12 := Matrix (Fin 12) (Fin 12) ℚ

abbrev Cov := Matrix (Fin 23) (Fin 23) ℚ

/-- One inertial sample (`IMUData`): timestamp, linear acceleration,
angular velocity. -/
structure IMUData where
  timestamp : ℚ
  acc : Vec3
  gyro : Vec3
deriving DecidableEq

/-- One scan point (`PointType`): coordinates plus the per-point time offset
in milliseconds, stored in the `curvature` field. -/
structure PointType where
  x : ℚ
  y : ℚ
  z : ℚ
  curvature : ℚ

instance : DecidableEq PointType := fun a b =>
  decidable_of_iff
    (a.x = b.x ∧ a.y = b.y ∧ a.z = b.z ∧ a.curvature = b.curvature)
    (by cases a; cases b; simp)

/-- The estimator's mean state (`kf::IESKF` state `x()`), restricted to the
fields this subsystem reads and writes. -/
structure State where
  rot : Mat3
  pos : Vec3
  vel : Vec3
  bg : Vec3
  ba : Vec3
  g : Vec3
  rot_ext : Mat3
  pos_ext : Vec3
deriving DecidableEq

/-- The shared estimator handle (`m_kf`): mean state `x()` plus covariance
`P()` (23-dimensional tangent space: the code seeds diagonal blocks at
indices 6, 9, 15, 18 of size 3 and a 2×2 block at index 21). -/
structure KF where
  x : State
  P : Cov
deriving DecidableEq

/-- The struct `kf::Input`: the midpoint inertial input handed to `predict`. -/
structure Input where
  acc : Vec3
  gyro : Vec3
deriving DecidableEq

/-- One pose-cache entry (`m_imu_poses_cache`): offset from scan start,
corrected acceleration, corrected angular velocity, velocity, position,
rotation (the constructor-argument order of the `emplace_back` calls). -/
structure PoseSample where
  offset : ℚ
  acc : Vec3
  gyro : Vec3
  vel : Vec3
  pos : Vec3
  rot : Mat3

instance : DecidableEq PoseSample := fun a b =>
  decidable_of_iff
    (a.offset = b.offset ∧ a.acc = b.acc ∧ a.gyro = b.gyro ∧ a.vel = b.vel ∧
      a.pos = b.pos ∧ a.rot = b.rot)
    (by cases a; cases b; simp)

/-- Static configuration (`Config`) consumed by the processor. -/
structure Config where
  ng : ℚ
  na : ℚ
  nbg : ℚ
  nba : ℚ
  imu_init_num : ℕ
  gravity_align : Bool
  r_il : Mat3
  p_il : Vec3

/-- One input batch (`SyncPackage`): inertial samples, the scan's points and
the scan's time bounds. -/
structure SyncPackage where
  imus : List IMUData
  cloud : List PointType
  cloud_start_time : ℚ
  cloud_end_time : ℚ

/-- The processor's cross-call state: `m_last_imu`, `m_last_acc`,
`m_last_gyro`, `m_last_end_time` and the shared estimator `m_kf`. -/
structure ProcState where
  last_imu : IMUData
  last_acc : Vec3
  last_gyro : Vec3
  last_end_time : ℚ
  kf : KF
deriving DecidableEq

/-- The external estimator's forward prediction `kf::IESKF::predict`
(out of scope per spec §4.4): an arbitrary function from
(estimator, input, dt, process noise) to a new estimator value. -/
abbrev PredictFn := KF → Input → ℚ → Mat12 → KF

/-- The rotational exponential `Sophus::SO3d::exp` (external library code):
an arbitrary map from a 3-vector to a matrix. -/
abbrev SO3Exp := Vec3 → Mat3

/-- The process-noise matrix `m_Q` built in the constructor: identity, with
the four 3×3 diagonal blocks scaled by `ng`, `na`, `nbg`, `nba`. -/
def mQ (cfg : Config) : Mat12 :=
  Matrix.of fun i j =>
    if i = j then
      if (i : ℕ) < 3 then cfg.ng
      else if (i : ℕ) < 6 then cfg.na
      else if (i : ℕ) < 9 then cfg.nbg
      else cfg.nba
    else 0

/-- Modelled from the spec: `initG` of the estimator state (`kf::IESKF`, whose
source is not under `src/`).  Per §4.1's no-align policy (the policy every
claim here concerns): "set gravity directly to the negated mean acceleration",
so `initG` stores its argument as the gravity vector. -/
def State.initG (s : State) (v : Vec3) : State := { s with g := v }

/-- Result of one call to the initializer: readiness flag, the accumulation
buffer `m_imu_cache`, the (possibly) seeded estimator, and the continuity
anchor `m_last_imu` (`none` when not set by this call). -/
structure InitResult where
  ready : Bool
  cache : List IMUData
  kf : KF
  last_imu : Option IMUData
deriving DecidableEq

/-- Models `IMUProcessor::initialize` (lines 19-52; that identifier is a reserved
word in Lean): append the batch to the accumulation buffer; below the
threshold return not-ready and touch nothing else; otherwise average the
whole buffer, seed extrinsics, gyro bias, attitude/gravity per the alignment
policy, seed the covariance, and record the buffer's last sample as the
continuity anchor.  `ftv u v` models the external
`Eigen::Quaterniond::FromTwoVectors(u.normalized(), v).matrix()`. -/
def imuInit (ftv : Vec3 → Vec3 → Mat3) (cfg : Config) (cache0 : List IMUData)
    (kf : KF) (imus : List IMUData) : InitResult :=
  let cache := cache0 ++ imus
  if cache.length < cfg.imu_init_num then ⟨false, cache, kf, none⟩
  else
    let n : ℚ := (cache.length : ℚ)
    let acc_mean : Vec3 := n⁻¹ • cache.foldl (fun s d => s + d.acc) 0
    let gyro_mean : Vec3 := n⁻¹ • cache.foldl (fun s d => s + d.gyro) 0
    let x1 : State :=
      { kf.x with rot_ext := cfg.r_il, pos_ext := cfg.p_il, bg := gyro_mean }
    let x2 : State :=
      if cfg.gravity_align then
        ({ x1 with rot := ftv (-acc_mean) ![0, 0, -1] }).initG ![0, 0, -1]
      else
        x1.initG (-acc_mean)
    let P2 : Cov := Matrix.of fun i j =>
      if i = j then
        if (6 ≤ (i : ℕ) ∧ (i : ℕ) < 12) ∨ 21 ≤ (i : ℕ) then 1 / 100000
        else if 15 ≤ (i : ℕ) ∧ (i : ℕ) < 21 then 1 / 10000
        else 1
      else 0
    ⟨true, cache, ⟨x2, P2⟩, cache.getLast?⟩

/-- The loop-carried data of the propagation loop inside
`IMUProcessor::undistort`: the estimator, `m_last_acc`, `m_last_gyro`, the
pose cache being built, the current `kf::Input`, and - for verification - the
list of `(input, dt)` arguments of the prediction calls issued so far. -/
structure LoopState where
  kf : KF
  last_acc : Vec3
  last_gyro : Vec3
  poses : List PoseSample
  inp : Input
  calls : List (Input × ℚ)

/-- One iteration of the propagation loop of `undistort` (lines 73-95) over a
consecutive sample pair `(head, tail)`: skip if `tail` ends before
`m_last_end_time`; otherwise midpoint the inputs, clip `dt` at
`m_last_end_time`, predict, recompute the corrected measurements and append a
pose-cache entry. -/
def pairStep (pf : PredictFn) (q : Mat12) (lastEnd cloudBegin : ℚ)
    (s : LoopState) (ht : IMUData × IMUData) : LoopState :=
  if ht.2.timestamp < lastEnd then s
  else
    let gyro_val : Vec3 := ((1 : ℚ) / 2) • (ht.1.gyro + ht.2.gyro)
    let acc_val : Vec3 := ((1 : ℚ) / 2) • (ht.1.acc + ht.2.acc)
    let dt : ℚ :=
      if ht.1.timestamp < lastEnd then ht.2.timestamp - lastEnd
      else ht.2.timestamp - ht.1.timestamp
    let inp : Input := ⟨acc_val, gyro_val⟩
    let kf2 := pf s.kf inp dt q
    let lg : Vec3 := gyro_val - kf2.x.bg
    let la : Vec3 := kf2.x.rot.mulVec (acc_val - kf2.x.ba) + kf2.x.g
    { kf := kf2, last_acc := la, last_gyro := lg,
      poses := s.poses ++
        [⟨ht.2.timestamp - cloudBegin, la, lg, kf2.x.vel, kf2.x.pos, kf2.x.rot⟩],
      inp := inp, calls := s.calls ++ [(inp, dt)] }

/-- The end pose captured after propagation (lines 102-105): `cur_rot`,
`cur_pos`, `cur_rot_ext`, `cur_pos_ext`. -/
structure EndPose where
  rot : Mat3
  pos : Vec3
  rot_ext : Mat3
  pos_ext : Vec3
deriving DecidableEq

/-- The compensation applied to one point (lines 120-127): `dt` is the point
offset in seconds past `head.offset`; the pose is extrapolated by the
rotational exponential of `gyro·dt` and constant-acceleration kinematics, and
the point is re-expressed at the end pose through the extrinsic transform. -/
def pointCompensate (E : SO3Exp) (ep : EndPose) (head tail : PoseSample)
    (p : PointType) : PointType :=
  let dt : ℚ := p.curvature / 1000 - head.offset
  let pv : Vec3 := ![p.x, p.y, p.z]
  let point_rot : Mat3 := head.rot * E (dt • tail.gyro)
  let point_pos : Vec3 := head.pos + dt • head.vel + ((1 : ℚ) / 2 * dt * dt) • tail.acc
  let pc : Vec3 :=
    ep.rot_ext.transpose.mulVec
      (ep.rot.transpose.mulVec
        (point_rot.mulVec (ep.rot_ext.mulVec pv + ep.pos_ext) + point_pos - ep.pos)
        - ep.pos_ext)
  { p with x := pc 0, y := pc 1, z := pc 2 }

/-- The inner point walk of the deskew loop (lines 118-130): starting at point
index `j` and moving toward index 0, re-express every point whose offset in
seconds exceeds `head.offset`; stop at the first point failing that
comparison, or unconditionally after processing index 0 (the
`it_pcl == begin` break).  `none` models the out-of-bounds read of the loop
condition when the cursor lies outside the point sequence (which happens only
for an empty scan). -/
def innerWalk (E : SO3Exp) (ep : EndPose) (head tail : PoseSample) :
    ℕ → List PointType → Option (List PointType × ℕ)
  | 0, cloud =>
    match cloud[0]? with
    | none => none
    | some p =>
      if p.curvature / 1000 > head.offset then
        some (cloud.set 0 (pointCompensate E ep head tail p), 0)
      else some (cloud, 0)
  | j2 + 1, cloud =>
    match cloud[j2 + 1]? with
    | none => none
    | some p =>
      if p.curvature / 1000 > head.offset then
        innerWalk E ep head tail j2
          (cloud.set (j2 + 1) (pointCompensate E ep head tail p))
      else some (cloud, j2 + 1)

/-- The outer deskew loop (lines 107-131): the pose-cache intervals in reverse
order, threading the shared point cursor through the inner walks. -/
def deskewRun (E : SO3Exp) (ep : EndPose) :
    List (PoseSample × PoseSample) → List PointType → ℕ →
      Option (List PointType × ℕ)
  | [], cloud, j => some (cloud, j)
  | ht :: rest, cloud, j =>
    match innerWalk E ep ht.1 ht.2 j cloud with
    | none => none
    | some (c2, j2) => deskewRun E ep rest c2 j2

/-- The whole deskew pass: the intervals are the consecutive pose-cache pairs
`(head, tail)`, walked from the last one back to the first; the point cursor
starts at the last point (`points.end() - 1`). -/
def deskew (E : SO3Exp) (ep : EndPose) (cache : List PoseSample)
    (cloud : List PointType) : Option (List PointType) :=
  (deskewRun E ep ((cache.zip cache.tail).reverse) cloud (cloud.length - 1)).map
    Prod.fst

/-- Ordering of scan points used by the `std::sort` call of line 65 (the C++
comparator is strict `<` on `curvature`; the postcondition of the sort is the
induced non-descending order modelled here). -/
def curvLe (a b : PointType) : Prop := a.curvature ≤ b.curvature

instance : DecidableRel curvLe :=
  fun a b => inferInstanceAs (Decidable (a.curvature ≤ b.curvature))

instance : IsTotal PointType curvLe :=
  ⟨fun a b => le_total a.curvature b.curvature⟩

instance : IsTrans PointType curvLe :=
  ⟨fun _ _ _ h1 h2 => le_trans h1 h2⟩

/-- Everything `IMUProcessor::undistort` computes, kept side by side so that
single aspects can be inspected: the sorted scan, the pose cache, the
`(input, dt)` arguments of the loop predictions and of the trailing boundary
prediction, the captured end pose, the deskewed scan (`none` on an
out-of-bounds point access), and the updated cross-call state. -/
structure UndistortResult where
  sortedCloud : List PointType
  poses : List PoseSample
  calls : List (Input × ℚ)
  tailCall : Input × ℚ
  endPose : EndPose
  cloudOut : Option (List PointType)
  ps : ProcState

/-- Models `IMUProcessor::undistort` (lines 54-132).  The working sample window is
`m_last_imu` followed by the batch's samples; the points are sorted by
`curvature`; the pose cache is seeded with a zero-offset entry carrying the
state as of the end of the previous call; the propagation loop runs over
consecutive window pairs; one trailing prediction extrapolates to the scan
end (its input is the loop's last `kf::Input`; the C++ declares `inp` without
initializer, modelled as zero when no loop iteration ran); then the deskew
pass rewrites the points.  -/
def undistort (pf : PredictFn) (E : SO3Exp) (cfg : Config) (st : ProcState)
    (pkg : SyncPackage) : UndistortResult :=
  let sorted := List.insertionSort curvLe pkg.cloud
  let seed : PoseSample :=
    ⟨0, st.last_acc, st.last_gyro, st.kf.x.vel, st.kf.x.pos, st.kf.x.rot⟩
  let s0 : LoopState := ⟨st.kf, st.last_acc, st.last_gyro, [seed], ⟨0, 0⟩, []⟩
  let s1 := ((st.last_imu :: pkg.imus).zip pkg.imus).foldl
    (pairStep pf (mQ cfg) st.last_end_time pkg.cloud_start_time) s0
  let imu_time_end := (pkg.imus.getLastD st.last_imu).timestamp
  let dt2 := pkg.cloud_end_time - imu_time_end
  let kf2 := pf s1.kf s1.inp dt2 (mQ cfg)
  let ep : EndPose := ⟨kf2.x.rot, kf2.x.pos, kf2.x.rot_ext, kf2.x.pos_ext⟩
  { sortedCloud := sorted
    poses := s1.poses
    calls := s1.calls
    tailCall := (s1.inp, dt2)
    endPose := ep
    cloudOut := deskew E ep s1.poses sorted
    ps := ⟨pkg.imus.getLastD st.last_imu, s1.last_acc, s1.last_gyro,
           pkg.cloud_end_time, kf2⟩ }

/-! ### Specification-side descriptions -/

/-- Specification-side description of the prediction call produced by one
window pair (the wording of claim C2): the pair is skipped exactly when its
tail ends before the last processed end time; the input is the arithmetic
mean of head's and tail's measurements; `dt` is the tail timestamp minus the
larger of the head timestamp and the last processed end time. -/
def specCall (lastEnd : ℚ) (ht : IMUData × IMUData) : Option (Input × ℚ) :=
  if ht.2.timestamp < lastEnd then none
  else
    some (⟨((1 : ℚ) / 2) • (ht.1.acc + ht.2.acc),
           ((1 : ℚ) / 2) • (ht.1.gyro + ht.2.gyro)⟩,
      ht.2.timestamp - max ht.1.timestamp lastEnd)

/-! ### Propagation-loop lemmas -/

lemma pairStep_calls (pf : PredictFn) (q : Mat12) (lE cb : ℚ) (s : LoopState)
    (ht : IMUData × IMUData) :
    (pairStep pf q lE cb s ht).calls = s.calls ++ (specCall lE ht).toList := by
  unfold pairStep specCall
  by_cases h1 : ht.2.timestamp < lE
  · simp [h1]
  · by_cases h2 : ht.1.timestamp < lE
    · simp [h1, h2, max_eq_right (le_of_lt h2)]
    · simp [h1, h2, max_eq_left (not_lt.mp h2)]

lemma foldl_calls (pf : PredictFn) (q : Mat12) (lE cb : ℚ) :
    ∀ (ps : List (IMUData × IMUData)) (s : LoopState),
      (ps.foldl (pairStep pf q lE cb) s).calls =
        s.calls ++ ps.filterMap (specCall lE) := by
  intro ps
  induction ps with
  | nil => intro s; simp
  | cons ht rest ih =>
    intro s
    rw [List.foldl_cons, ih, pairStep_calls, List.filterMap_cons]
    cases h : specCall lE ht <;> simp [h]

lemma pairStep_offsets (pf : PredictFn) (q : Mat12) (lE cb : ℚ) (s : LoopState)
    (ht : IMUData × IMUData) :
    (pairStep pf q lE cb s ht).poses.map PoseSample.offset =
      s.poses.map PoseSample.offset ++
        (if ht.2.timestamp < lE then [] else [ht.2.timestamp - cb]) := by
  unfold pairStep
  by_cases h1 : ht.2.timestamp < lE <;> simp [h1]

lemma foldl_offsets (pf : PredictFn) (q : Mat12) (lE cb : ℚ) :
    ∀ (ps : List (IMUData × IMUData)) (s : LoopState),
      ((ps.foldl (pairStep pf q lE cb) s).poses).map PoseSample.offset =
        s.poses.map PoseSample.offset ++
          ps.filterMap
            (fun ht => if ht.2.timestamp < lE then none
                       else some (ht.2.timestamp - cb)) := by
  intro ps
  induction ps with
  | nil => intro s; simp
  | cons ht rest ih =>
    intro s
    rw [List.foldl_cons, ih, pairStep_offsets, List.filterMap_cons]
    by_cases h1 : ht.2.timestamp < lE <;> simp [h1]

lemma pairStep_poses_prefix (pf : PredictFn) (q : Mat12) (lE cb : ℚ)
    (s : LoopState) (ht : IMUData × IMUData) :
    ∃ r, (pairStep pf q lE cb s ht).poses = s.poses ++ r := by
  unfold pairStep
  by_cases h1 : ht.2.timestamp < lE
  · exact ⟨[], by simp [h1]⟩
  · rw [if_neg h1]
    exact ⟨_, rfl⟩

lemma foldl_poses_prefix (pf : PredictFn) (q : Mat12) (lE cb : ℚ) :
    ∀ (ps : List (IMUData × IMUData)) (s : LoopState),
      ∃ r, (ps.foldl (pairStep pf q lE cb) s).poses = s.poses ++ r := by
  intro ps
  induction ps with
  | nil => intro s; exact ⟨[], by simp⟩
  | cons ht rest ih =>
    intro s
    obtain ⟨r1, h1⟩ := pairStep_poses_prefix pf q lE cb s ht
    obtain ⟨r2, h2⟩ := ih (pairStep pf q lE cb s ht)
    exact ⟨r1 ++ r2, by rw [List.foldl_cons, h2, h1, List.append_assoc]⟩

lemma pairStep_lengths (pf : PredictFn) (q : Mat12) (lE cb : ℚ) (s : LoopState)
    (ht : IMUData × IMUData) :
    (pairStep pf q lE cb s ht).poses.length + s.calls.length =
      (pairStep pf q lE cb s ht).calls.length + s.poses.length := by
  unfold pairStep
  by_cases h1 : ht.2.timestamp < lE <;> simp [h1] <;> omega

lemma foldl_lengths (pf : PredictFn) (q : Mat12) (lE cb : ℚ) :
    ∀ (ps : List (IMUData × IMUData)) (s : LoopState),
      (ps.foldl (pairStep pf q lE cb) s).poses.length + s.calls.length =
        (ps.foldl (pairStep pf q lE cb) s).calls.length + s.poses.length := by
  intro ps
  induction ps with
  | nil => intro s; simp only [List.foldl_nil]; omega
  | cons ht rest ih =>
    intro s
    have h1 := pairStep_lengths pf q lE cb s ht
    have h2 := ih (pairStep pf q lE cb s ht)
    rw [List.foldl_cons]
    omega

lemma undistort_calls (pf : PredictFn) (E : SO3Exp) (cfg : Config)
    (st : ProcState) (pkg : SyncPackage) :
    (undistort pf E cfg st pkg).calls =
      ((st.last_imu :: pkg.imus).zip pkg.imus).filterMap
        (specCall st.last_end_time) := by
  show (((st.last_imu :: pkg.imus).zip pkg.imus).foldl
      (pairStep pf (mQ cfg) st.last_end_time pkg.cloud_start_time) _).calls = _
  rw [foldl_calls]
  rfl

lemma undistort_tailCall (pf : PredictFn) (E : SO3Exp) (cfg : Config)
    (st : ProcState) (pkg : SyncPackage) :
    (undistort pf E cfg st pkg).tailCall.2 =
      pkg.cloud_end_time - (pkg.imus.getLastD st.last_imu).timestamp := rfl

/-- Consecutive entries of `l.zip l.tail` are related by any relation that
chains along `l`. -/
lemma chain'_zip_tail {α : Type} {r : α → α → Prop} :
    ∀ {l : List α} {a b : α}, List.Chain' r l → (a, b) ∈ l.zip l.tail → r a b := by
  intro l
  induction l with
  | nil => intro a b _ hm; simp at hm
  | cons x xs ih =>
    intro a b hc hm
    cases xs with
    | nil => simp at hm
    | cons y ys =>
      rw [List.chain'_cons] at hc
      simp only [List.tail_cons, List.zip_cons_cons, List.mem_cons] at hm
      rcases hm with h | h
      · cases h; exact hc.1
      · exact ih hc.2 (by simpa using h)

/-! ### Claim theorems: the initializer (C7, C4) and the loop calls (C2) -/

/-- Claim C2: for every consecutive window pair `(head, tail)` the propagator
invokes the estimator's prediction exactly when
`tail.timestamp ≥ lastProcessedEndTime` (a pair with
`tail.timestamp < lastProcessedEndTime` is skipped), with midpoint input
equal to the arithmetic mean of head's and tail's acceleration and angular
velocity, and step duration
`dt = tail.timestamp - max(head.timestamp, lastProcessedEndTime)`. -/
theorem c2_predict_calls (pf : PredictFn) (E : SO3Exp) (cfg : Config)
    (st : ProcState) (pkg : SyncPackage) :
    (undistort pf E cfg st pkg).calls =
      ((st.last_imu :: pkg.imus).zip pkg.imus).filterMap
        (specCall st.last_end_time) :=
  undistort_calls pf E cfg st pkg

/-- Claim C7: the initializer returns not-ready exactly while the accumulated
buffer is below the configured threshold, and a not-ready return leaves the
shared estimator (state and covariance) untouched; seeding happens only on a
ready return. -/
theorem c7_init_readiness (ftv : Vec3 → Vec3 → Mat3) (cfg : Config)
    (cache0 : List IMUData) (kf : KF) (imus : List IMUData) :
    ((imuInit ftv cfg cache0 kf imus).ready = false ↔
      (cache0 ++ imus).length < cfg.imu_init_num) ∧
    ((imuInit ftv cfg cache0 kf imus).ready = false →
      (imuInit ftv cfg cache0 kf imus).kf = kf) := by
  simp only [imuInit]
  by_cases h : (cache0 ++ imus).length < cfg.imu_init_num
  · rw [if_pos h]
    exact ⟨iff_of_true rfl h, fun _ => rfl⟩
  · rw [if_neg h]
    exact ⟨iff_of_false (by simp) h, fun hx => absurd hx (by simp)⟩

/-- Helper for averaging a buffer of identical measurements. -/
lemma foldl_add_const {α : Type} [AddCommMonoid α] (f : IMUData → α) (a : α) :
    ∀ (l : List IMUData) (s : α), (∀ d ∈ l, f d = a) →
      l.foldl (fun acc d => acc + f d) s = s + l.length • a := by
  intro l
  induction l with
  | nil => intro s _; simp
  | cons d rest ih =>
    intro s hall
    rw [List.foldl_cons, ih _ (fun x hx => hall x (List.mem_cons_of_mem d hx)),
      hall d (List.mem_cons_self d rest)]
    rw [List.length_cons, add_assoc, succ_nsmul, add_comm a (rest.length • a)]

/-- Claim C4 (amended): after a no-align initialization on stationary
unbiased input where every accumulated sample has acceleration `(0,0,-g)` and
angular velocity `0`, and the estimator's attitude starts at identity, the
seeded state has gyro bias `0`, identity attitude — and gravity `(0,0,+g)`,
the negated mean acceleration (not `(0,0,-g)` as the claim stated). -/
theorem c4_noalign_seed (ftv : Vec3 → Vec3 → Mat3) (cfg : Config)
    (cache0 imus : List IMUData) (kf : KF) (gval : ℚ)
    (halign : cfg.gravity_align = false)
    (hrot : kf.x.rot = 1)
    (hacc : ∀ d ∈ cache0 ++ imus, d.acc = ![0, 0, -gval])
    (hgyro : ∀ d ∈ cache0 ++ imus, d.gyro = 0)
    (hn : cfg.imu_init_num ≤ (cache0 ++ imus).length)
    (hne : cache0 ++ imus ≠ []) :
    (imuInit ftv cfg cache0 kf imus).ready = true ∧
    (imuInit ftv cfg cache0 kf imus).kf.x.bg = 0 ∧
    (imuInit ftv cfg cache0 kf imus).kf.x.g = ![0, 0, gval] ∧
    (imuInit ftv cfg cache0 kf imus).kf.x.rot = 1 := by
  have hlen : (cache0 ++ imus).length ≠ 0 := by
    simpa [List.length_eq_zero] using hne
  have hq : ((cache0 ++ imus).length : ℚ) ≠ 0 := Nat.cast_ne_zero.mpr hlen
  have hsacc : (cache0 ++ imus).foldl (fun s d => s + d.acc) 0 =
      (cache0 ++ imus).length • (![0, 0, -gval] : Vec3) := by
    simpa using foldl_add_const (fun d => d.acc) ![0, 0, -gval] (cache0 ++ imus) 0 hacc
  have hsgyro : (cache0 ++ imus).foldl (fun s d => s + d.gyro) 0 =
      ((0 : Vec3)) := by
    have := foldl_add_const (fun d => d.gyro) (0 : Vec3) (cache0 ++ imus) 0 hgyro
    simpa using this
  have hmean : (((cache0 ++ imus).length : ℚ))⁻¹ •
      ((cache0 ++ imus).foldl (fun s d => s + d.acc) 0) = ![0, 0, -gval] := by
    rw [hsacc, ← Nat.cast_smul_eq_nsmul ℚ, smul_smul, inv_mul_cancel₀ hq, one_smul]
  simp only [imuInit]
  rw [if_neg (not_lt.mpr hn)]
  simp only [halign, Bool.false_eq_true, if_false, State.initG]
  refine ⟨by trivial, ?_, ?_, hrot⟩
  · simp [hsgyro]
  · show -((((cache0 ++ imus).length : ℚ))⁻¹ •
        ((cache0 ++ imus).foldl (fun s d => s + d.acc) 0)) = ![0, 0, gval]
    rw [hmean]
    funext i
    fin_cases i <;> simp

/-! ### Deskew inner-walk characterization -/

/-- Index `k` is consumed by an inner walk that starts at index `j` over
`cloud` for interval head `head`: it lies at or below the start index and the
offset comparison holds at every index between `k` and `j`, so the descending
cursor reaches `k` and rewrites it. -/
def consumedIdx (head : PoseSample) (cloud : List PointType) (j k : ℕ) : Prop :=
  k ≤ j ∧ ∀ i, k ≤ i → i ≤ j → ∀ q, cloud[i]? = some q →
    q.curvature / 1000 > head.offset

lemma iw_spec (E : SO3Exp) (ep : EndPose) (head tail : PoseSample) :
    ∀ (j : ℕ) (cloud : List PointType) (out : List PointType × ℕ),
      innerWalk E ep head tail j cloud = some out →
      out.1.length = cloud.length ∧ out.2 ≤ j ∧
      ∀ k p, cloud[k]? = some p →
        (consumedIdx head cloud j k →
          out.1[k]? = some (pointCompensate E ep head tail p)) ∧
        (¬ consumedIdx head cloud j k → out.1[k]? = some p) := by
  intro j
  induction j with
  | zero =>
    intro cloud out hrun
    simp only [innerWalk] at hrun
    cases h0 : cloud[0]? with
    | none => rw [h0] at hrun; exact absurd hrun (by simp)
    | some p0 =>
      rw [h0] at hrun
      simp only [] at hrun
      by_cases hcond : p0.curvature / 1000 > head.offset
      · rw [if_pos hcond, Option.some.injEq] at hrun
        subst hrun
        have hlt : 0 < cloud.length := (List.getElem?_eq_some_iff.mp h0).1
        refine ⟨List.length_set cloud 0 _, le_refl 0, ?_⟩
        intro k p hk
        constructor
        · intro hcons
          have hk0 : k = 0 := Nat.le_zero.mp hcons.1
          subst hk0
          have hpp : p0 = p := by rw [h0] at hk; exact Option.some.inj hk
          subst hpp
          simp [List.getElem?_set, hlt]
        · intro hncons
          by_cases hk0 : k = 0
          · subst hk0
            refine absurd ⟨le_refl 0, fun i hi1 hi2 q hq => ?_⟩ hncons
            have hi0 : i = 0 := Nat.le_zero.mp hi2
            subst hi0
            rw [h0] at hq
            have := Option.some.inj hq
            subst this
            exact hcond
          · rw [List.getElem?_set_ne (Ne.symm hk0)]
            exact hk
      · rw [if_neg hcond, Option.some.injEq] at hrun
        subst hrun
        refine ⟨rfl, le_refl 0, ?_⟩
        intro k p hk
        constructor
        · intro hcons
          exact absurd (hcons.2 0 hcons.1 (le_refl 0) p0 h0) hcond
        · intro _
          exact hk
  | succ j2 ih =>
    intro cloud out hrun
    simp only [innerWalk] at hrun
    cases h1 : cloud[j2 + 1]? with
    | none => rw [h1] at hrun; exact absurd hrun (by simp)
    | some p1 =>
      rw [h1] at hrun
      simp only [] at hrun
      by_cases hcond : p1.curvature / 1000 > head.offset
      · rw [if_pos hcond] at hrun
        obtain ⟨hlen, hj, hchar⟩ :=
          ih (cloud.set (j2 + 1) (pointCompensate E ep head tail p1)) out hrun
        have hjlt : j2 + 1 < cloud.length := (List.getElem?_eq_some_iff.mp h1).1
        refine ⟨by rw [hlen, List.length_set], le_trans hj (Nat.le_succ j2), ?_⟩
        intro k p hk
        by_cases hkj : k = j2 + 1
        · subst hkj
          have hpp : p1 = p := by rw [h1] at hk; exact Option.some.inj hk
          subst hpp
          have hk2 : (cloud.set (j2 + 1) (pointCompensate E ep head tail p1))[j2 + 1]? =
              some (pointCompensate E ep head tail p1) := by
            simp [List.getElem?_set, hjlt]
          have hnc2 : ¬ consumedIdx head
              (cloud.set (j2 + 1) (pointCompensate E ep head tail p1)) j2 (j2 + 1) :=
            fun hc => absurd hc.1 (by omega)
          constructor
          · intro _
            exact (hchar (j2 + 1) _ hk2).2 hnc2
          · intro hnc
            refine absurd ⟨le_refl _, fun i hi1 hi2 q hq => ?_⟩ hnc
            have hij : i = j2 + 1 := le_antisymm hi2 hi1
            subst hij
            rw [h1] at hq
            have := Option.some.inj hq
            subst this
            exact hcond
        · have hk2 : (cloud.set (j2 + 1) (pointCompensate E ep head tail p1))[k]? =
              some p := by
            rw [List.getElem?_set_ne (fun h => hkj h.symm)]
            exact hk
          have hiff : consumedIdx head cloud (j2 + 1) k ↔
              consumedIdx head
                (cloud.set (j2 + 1) (pointCompensate E ep head tail p1)) j2 k := by
            constructor
            · rintro ⟨hkle, hall⟩
              refine ⟨by omega, fun i hi1 hi2 q hq => ?_⟩
              have hne : i ≠ j2 + 1 := by omega
              rw [List.getElem?_set_ne (fun h => hne h.symm)] at hq
              exact hall i hi1 (by omega) q hq
            · rintro ⟨hkle, hall⟩
              refine ⟨by omega, fun i hi1 hi2 q hq => ?_⟩
              by_cases hij : i = j2 + 1
              · subst hij
                rw [h1] at hq
                have := Option.some.inj hq
                subst this
                exact hcond
              · have heq : (cloud.set (j2 + 1)
                    (pointCompensate E ep head tail p1))[i]? = cloud[i]? :=
                  List.getElem?_set_ne (fun h => hij h.symm)
                exact hall i hi1 (by omega) q (by rw [heq]; exact hq)
          constructor
          · intro hc
            exact (hchar k p hk2).1 (hiff.mp hc)
          · intro hnc
            exact (hchar k p hk2).2 (fun hc2 => hnc (hiff.mpr hc2))
      · rw [if_neg hcond, Option.some.injEq] at hrun
        subst hrun
        refine ⟨rfl, le_refl _, ?_⟩
        intro k p hk
        constructor
        · intro hcons
          exact absurd (hcons.2 (j2 + 1) hcons.1 (le_refl _) p1 h1) hcond
        · intro _
          exact hk

lemma iw_isSome (E : SO3Exp) (ep : EndPose) (head tail : PoseSample) :
    ∀ (j : ℕ) (cloud : List PointType), j < cloud.length →
      ∃ out, innerWalk E ep head tail j cloud = some out := by
  intro j
  induction j with
  | zero =>
    intro cloud hj
    cases h0 : cloud[0]? with
    | none => exact absurd (List.getElem?_eq_none_iff.mp h0) (by omega)
    | some p =>
      simp only [innerWalk, h0]
      by_cases hcond : p.curvature / 1000 > head.offset
      · exact ⟨_, by rw [if_pos hcond]⟩
      · exact ⟨_, by rw [if_neg hcond]⟩
  | succ j2 ih =>
    intro cloud hj
    cases h1 : cloud[j2 + 1]? with
    | none => exact absurd (List.getElem?_eq_none_iff.mp h1) (by omega)
    | some p =>
      simp only [innerWalk, h1]
      by_cases hcond : p.curvature / 1000 > head.offset
      · rw [if_pos hcond]
        exact ih _ (by rw [List.length_set]; omega)
      · exact ⟨_, by rw [if_neg hcond]⟩

lemma iw_preserve (E : SO3Exp) (ep : EndPose) (head tail : PoseSample)
    {j : ℕ} {cloud : List PointType} {out : List PointType × ℕ} {k : ℕ}
    {p : PointType}
    (hrun : innerWalk E ep head tail j cloud = some out)
    (hk : cloud[k]? = some p)
    (hnp : ¬ p.curvature / 1000 > head.offset) :
    out.1[k]? = some p := by
  refine ((iw_spec E ep head tail j cloud out hrun).2.2 k p hk).2 ?_
  intro hc
  exact hnp (hc.2 k (le_refl k) hc.1 p hk)

lemma iw_map_curv (E : SO3Exp) (ep : EndPose) (head tail : PoseSample)
    {j : ℕ} {cloud : List PointType} {out : List PointType × ℕ}
    (hrun : innerWalk E ep head tail j cloud = some out) :
    out.1.map PointType.curvature = cloud.map PointType.curvature := by
  obtain ⟨hlen, _, hchar⟩ := iw_spec E ep head tail j cloud out hrun
  apply List.ext_getElem?
  intro n
  rw [List.getElem?_map, List.getElem?_map]
  cases hn : cloud[n]? with
  | none =>
    have h1 : cloud.length ≤ n := List.getElem?_eq_none_iff.mp hn
    have h2 : out.1[n]? = none := List.getElem?_eq_none_iff.mpr (by omega)
    rw [h2]
  | some p =>
    by_cases hc : consumedIdx head cloud j n
    · rw [(hchar n p hn).1 hc]
      rfl
    · rw [(hchar n p hn).2 hc]

lemma dr_isSome (E : SO3Exp) (ep : EndPose) :
    ∀ (ivs : List (PoseSample × PoseSample)) (cloud : List PointType) (j : ℕ),
      j < cloud.length →
      ∃ out, deskewRun E ep ivs cloud j = some out ∧
        out.1.length = cloud.length ∧ out.2 ≤ j := by
  intro ivs
  induction ivs with
  | nil =>
    intro cloud j hj
    exact ⟨(cloud, j), rfl, rfl, le_refl j⟩
  | cons iv rest ih =>
    intro cloud j hj
    obtain ⟨⟨c1, j1⟩, h1⟩ := iw_isSome E ep iv.1 iv.2 j cloud hj
    obtain ⟨hlen1, hj1, _⟩ := iw_spec E ep iv.1 iv.2 j cloud (c1, j1) h1
    obtain ⟨out2, h2, hlen2, hj2⟩ := ih c1 j1 (by simp only [] at hlen1 hj1; omega)
    refine ⟨out2, ?_, ?_, ?_⟩
    · simp only [deskewRun, h1]
      exact h2
    · simp only [] at hlen1
      omega
    · simp only [] at hj1
      omega

lemma dr_preserve (E : SO3Exp) (ep : EndPose) {k : ℕ} {p : PointType} :
    ∀ (ivs : List (PoseSample × PoseSample)) (cloud : List PointType) (j : ℕ)
      (out : List PointType × ℕ),
      deskewRun E ep ivs cloud j = some out →
      cloud[k]? = some p →
      (∀ iv ∈ ivs, ¬ p.curvature / 1000 > (iv.1 : PoseSample).offset) →
      out.1[k]? = some p := by
  intro ivs
  induction ivs with
  | nil =>
    intro cloud j out hrun hk _
    simp only [deskewRun, Option.some.injEq] at hrun
    subst hrun
    exact hk
  | cons iv rest ih =>
    intro cloud j out hrun hk hall
    simp only [deskewRun] at hrun
    cases h1 : innerWalk E ep iv.1 iv.2 j cloud with
    | none => rw [h1] at hrun; exact absurd hrun (by simp)
    | some out1 =>
      obtain ⟨c1, j1⟩ := out1
      rw [h1] at hrun
      simp only [] at hrun
      have hk1 : c1[k]? = some p :=
        iw_preserve E ep iv.1 iv.2 h1 hk (hall iv (List.mem_cons_self iv rest))
      exact ih c1 j1 out hrun hk1 (fun x hx => hall x (List.mem_cons_of_mem iv hx))

lemma dr_map_curv (E : SO3Exp) (ep : EndPose) :
    ∀ (ivs : List (PoseSample × PoseSample)) (cloud : List PointType) (j : ℕ)
      (out : List PointType × ℕ),
      deskewRun E ep ivs cloud j = some out →
      out.1.map PointType.curvature = cloud.map PointType.curvature := by
  intro ivs
  induction ivs with
  | nil =>
    intro cloud j out hrun
    simp only [deskewRun, Option.some.injEq] at hrun
    subst hrun
    rfl
  | cons iv rest ih =>
    intro cloud j out hrun
    simp only [deskewRun] at hrun
    cases h1 : innerWalk E ep iv.1 iv.2 j cloud with
    | none => rw [h1] at hrun; exact absurd hrun (by simp)
    | some out1 =>
      obtain ⟨c1, j1⟩ := out1
      rw [h1] at hrun
      simp only [] at hrun
      rw [ih c1 j1 out hrun]
      exact iw_map_curv E ep iv.1 iv.2 h1

lemma deskew_isSome (E : SO3Exp) (ep : EndPose) (cache : List PoseSample)
    {cloud : List PointType} (h : cloud ≠ []) :
    (deskew E ep cache cloud).isSome := by
  have hlt : cloud.length - 1 < cloud.length := by
    cases cloud with
    | nil => exact absurd rfl h
    | cons a t => simp
  obtain ⟨out, hrun, _, _⟩ :=
    dr_isSome E ep ((cache.zip cache.tail).reverse) cloud (cloud.length - 1) hlt
  unfold deskew
  rw [hrun]
  rfl

/-! ### Claim theorems: the deskew walk (C1, C3, C8, C9) -/

/-- Claim C1: every point the deskew inner loop consumes for the pose-cache
interval `(head, tail)` — and only such a point — is overwritten exactly with
`p' = Rext^T (Rend^T (Rpt (Rext p + text) + ppt - pend) - text)`, where `dt`
is the point offset converted to seconds minus `head.offset`,
`Rpt = head.rot · exp(tail.gyro · dt)` and
`ppt = head.pos + head.vel·dt + ½·tail.acc·dt²`; moreover the end pose
`(Rend, pend, Rext, text)` that `undistort` hands to the walk is the
estimator's rotation, position, extrinsic rotation and extrinsic translation
as captured immediately after propagation. -/
theorem c1_compensation_formula (E : SO3Exp) (ep : EndPose)
    (head tail : PoseSample) (j : ℕ) (cloud : List PointType)
    (out : List PointType × ℕ) (k : ℕ) (p : PointType)
    (hrun : innerWalk E ep head tail j cloud = some out)
    (hk : cloud[k]? = some p) :
    (consumedIdx head cloud j k →
      out.1[k]? = some
        (let dt := p.curvature / 1000 - head.offset
         let pv : Vec3 := ![p.x, p.y, p.z]
         let pc :=
           ep.rot_ext.transpose.mulVec
             (ep.rot.transpose.mulVec
               ((head.rot * E (dt • tail.gyro)).mulVec
                   (ep.rot_ext.mulVec pv + ep.pos_ext) +
                 (head.pos + dt • head.vel + ((1 : ℚ) / 2 * dt * dt) • tail.acc) -
                 ep.pos) - ep.pos_ext)
         { p with x := pc 0, y := pc 1, z := pc 2 })) ∧
    (¬ consumedIdx head cloud j k → out.1[k]? = some p) ∧
    ∀ (pf : PredictFn) (cfg : Config) (st : ProcState) (pkg : SyncPackage),
      (undistort pf E cfg st pkg).endPose =
        ⟨(undistort pf E cfg st pkg).ps.kf.x.rot,
         (undistort pf E cfg st pkg).ps.kf.x.pos,
         (undistort pf E cfg st pkg).ps.kf.x.rot_ext,
         (undistort pf E cfg st pkg).ps.kf.x.pos_ext⟩ := by
  obtain ⟨_, _, hchar⟩ := iw_spec E ep head tail j cloud out hrun
  exact ⟨(hchar k p hk).1, (hchar k p hk).2, fun pf cfg st pkg => rfl⟩

/-- Claim C3 (amended): `undistort` tolerates an empty sample batch (single
anchor sample, zero integration pairs, only the trailing extrapolation) and
performs no out-of-bounds point access whenever the scan is non-empty; but it
is not guarded against an empty scan — with an empty scan and at least one
pose-cache interval the inner loop's condition performs an out-of-bounds
point read (see the counterexample). -/
theorem c3_safety (pf : PredictFn) (E : SO3Exp) (cfg : Config) (st : ProcState)
    (pkg : SyncPackage) (h : pkg.cloud ≠ [] ∨ pkg.imus = []) :
    ((undistort pf E cfg st pkg).cloudOut).isSome := by
  rcases h with h | h
  · have hne : List.insertionSort curvLe pkg.cloud ≠ [] := by
      intro hx
      apply h
      have hperm := List.perm_insertionSort curvLe pkg.cloud
      rw [hx] at hperm
      exact (List.Perm.nil_eq hperm).symm
    exact deskew_isSome E _ _ hne
  · obtain ⟨imus, cloud, t0, t1⟩ := pkg
    simp only [] at h
    subst h
    rfl

/-- Claim C8: the inner point walk never visits a scan point whose offset is
at or before the earliest pose-cache entry's offset: under an
offset-ascending pose cache, a point whose offset (in seconds) is at most the
first entry's offset fails the comparison against every interval head, so its
coordinates survive the whole deskew pass unchanged. -/
theorem c8_early_points_unchanged (E : SO3Exp) (ep : EndPose) (c0 : PoseSample)
    (rest : List PoseSample) (cloud out : List PointType) (k : ℕ) (p : PointType)
    (hsorted : (c0 :: rest).Pairwise (fun a b => a.offset ≤ b.offset))
    (hp : cloud[k]? = some p)
    (hoff : p.curvature / 1000 ≤ c0.offset)
    (hrun : deskew E ep (c0 :: rest) cloud = some out) :
    out[k]? = some p := by
  unfold deskew at hrun
  cases hdr : deskewRun E ep (((c0 :: rest).zip (c0 :: rest).tail).reverse)
      cloud (cloud.length - 1) with
  | none => rw [hdr] at hrun; exact absurd hrun (by simp)
  | some o2 =>
    rw [hdr, Option.map_some', Option.some.injEq] at hrun
    subst hrun
    have hall : ∀ iv ∈ ((c0 :: rest).zip (c0 :: rest).tail).reverse,
        ¬ p.curvature / 1000 > (iv.1 : PoseSample).offset := by
      intro iv hiv
      obtain ⟨a, b⟩ := iv
      rw [List.mem_reverse] at hiv
      have hmem : a ∈ c0 :: rest := (List.of_mem_zip hiv).1
      rcases List.mem_cons.mp hmem with hme | hme
      · subst hme
        exact not_lt.mpr hoff
      · have hle : c0.offset ≤ a.offset := (List.pairwise_cons.mp hsorted).1 a hme
        exact not_lt.mpr (le_trans hoff hle)
    exact dr_preserve E ep _ cloud _ o2 hdr hp hall

/-- Claim C9: `undistort` itself sorts the scan's points into ascending order
of the per-point offset (the `curvature` field) before the deskew pass, for
every input order — the sorted scan is a permutation of the input scan — and
the deskew pass preserves the per-point offsets and their order, so the
output scan is always offset-sorted. -/
theorem c9_sorted_cloud (pf : PredictFn) (E : SO3Exp) (cfg : Config)
    (st : ProcState) (pkg : SyncPackage) :
    (undistort pf E cfg st pkg).sortedCloud.Pairwise curvLe ∧
    ((undistort pf E cfg st pkg).sortedCloud).Perm pkg.cloud ∧
    ∀ c, (undistort pf E cfg st pkg).cloudOut = some c →
      c.map PointType.curvature =
        (undistort pf E cfg st pkg).sortedCloud.map PointType.curvature ∧
      c.Pairwise curvLe := by
  refine ⟨List.sorted_insertionSort curvLe pkg.cloud,
    List.perm_insertionSort curvLe pkg.cloud, ?_⟩
  intro c hc
  have hc2 : deskew E (undistort pf E cfg st pkg).endPose
      (undistort pf E cfg st pkg).poses
      (List.insertionSort curvLe pkg.cloud) = some c := hc
  unfold deskew at hc2
  have hmap : c.map PointType.curvature =
      (List.insertionSort curvLe pkg.cloud).map PointType.curvature := by
    cases hdr : deskewRun E (undistort pf E cfg st pkg).endPose
        (((undistort pf E cfg st pkg).poses.zip
          (undistort pf E cfg st pkg).poses.tail).reverse)
        (List.insertionSort curvLe pkg.cloud)
        ((List.insertionSort curvLe pkg.cloud).length - 1) with
    | none => rw [hdr] at hc2; exact absurd hc2 (by simp)
    | some o2 =>
      rw [hdr, Option.map_some', Option.some.injEq] at hc2
      subst hc2
      exact dr_map_curv E _ _ _ _ o2 hdr
  refine ⟨hmap, ?_⟩
  have hps : (List.insertionSort curvLe pkg.cloud).Pairwise curvLe :=
    List.sorted_insertionSort curvLe pkg.cloud
  have h1 : ((List.insertionSort curvLe pkg.cloud).map PointType.curvature).Pairwise
      (· ≤ ·) := List.pairwise_map.mpr hps
  have h2 : (c.map PointType.curvature).Pairwise (· ≤ ·) := by
    rw [hmap]
    exact h1
  exact (@List.pairwise_map PointType ℚ PointType.curvature (· ≤ ·) c).mp h2

lemma undistort_poses (pf : PredictFn) (E : SO3Exp) (cfg : Config)
    (st : ProcState) (pkg : SyncPackage) :
    (undistort pf E cfg st pkg).poses =
      (((st.last_imu :: pkg.imus).zip pkg.imus).foldl
        (pairStep pf (mQ cfg) st.last_end_time pkg.cloud_start_time)
        ⟨st.kf, st.last_acc, st.last_gyro,
         [⟨0, st.last_acc, st.last_gyro, st.kf.x.vel, st.kf.x.pos, st.kf.x.rot⟩],
         ⟨0, 0⟩, []⟩).poses := rfl

lemma undistort_calls_foldl (pf : PredictFn) (E : SO3Exp) (cfg : Config)
    (st : ProcState) (pkg : SyncPackage) :
    (undistort pf E cfg st pkg).calls =
      (((st.last_imu :: pkg.imus).zip pkg.imus).foldl
        (pairStep pf (mQ cfg) st.last_end_time pkg.cloud_start_time)
        ⟨st.kf, st.last_acc, st.last_gyro,
         [⟨0, st.last_acc, st.last_gyro, st.kf.x.vel, st.kf.x.pos, st.kf.x.rot⟩],
         ⟨0, 0⟩, []⟩).calls := rfl

/-! ### Claim theorems: `dt` sign and the pose cache (C5, C6) -/

/-- Claim C5: when the working window's timestamps are strictly increasing
and the scan's end time is at or after the window's last sample timestamp,
every `dt` handed to the estimator's prediction is nonnegative — both in the
per-pair loop and in the trailing boundary prediction. -/
theorem c5_dt_nonneg (pf : PredictFn) (E : SO3Exp) (cfg : Config)
    (st : ProcState) (pkg : SyncPackage)
    (hchain : List.Chain' (fun a b : IMUData => a.timestamp < b.timestamp)
      (st.last_imu :: pkg.imus))
    (hend : (pkg.imus.getLastD st.last_imu).timestamp ≤ pkg.cloud_end_time) :
    (∀ c ∈ (undistort pf E cfg st pkg).calls, 0 ≤ c.2) ∧
    0 ≤ (undistort pf E cfg st pkg).tailCall.2 := by
  constructor
  · intro c hcmem
    rw [undistort_calls] at hcmem
    obtain ⟨ht, hht, hf⟩ := List.mem_filterMap.mp hcmem
    obtain ⟨a, b⟩ := ht
    unfold specCall at hf
    by_cases hskip : b.timestamp < st.last_end_time
    · rw [if_pos hskip] at hf
      cases hf
    · rw [if_neg hskip] at hf
      have hlt : a.timestamp < b.timestamp :=
        @chain'_zip_tail IMUData (fun x y => x.timestamp < y.timestamp)
          (st.last_imu :: pkg.imus) a b hchain
          (by rw [List.tail_cons]; exact hht)
      have hc2 : c.2 = b.timestamp - max a.timestamp st.last_end_time := by
        rw [← Option.some.inj hf]
      rw [hc2]
      exact sub_nonneg.mpr (max_le (le_of_lt hlt) (not_lt.mp hskip))
  · rw [undistort_tailCall]
    exact sub_nonneg.mpr hend

/-- Claim C6: after every propagation the pose cache is non-empty; its first
entry has offset `0` and carries the state as of the end of the previous call
(`m_last_acc`, `m_last_gyro` and the estimator's velocity, position and
rotation at entry); exactly one entry with offset
`tail.timestamp − scan start` is appended per executed integration step while
the trailing boundary prediction appends none; and — when the window's
timestamps strictly increase and the scan start does not exceed the last
processed end time — the offsets are in ascending order. -/
theorem c6_pose_cache (pf : PredictFn) (E : SO3Exp) (cfg : Config)
    (st : ProcState) (pkg : SyncPackage)
    (hchain : List.Chain' (fun a b : IMUData => a.timestamp < b.timestamp)
      (st.last_imu :: pkg.imus))
    (hstart : pkg.cloud_start_time ≤ st.last_end_time) :
    (undistort pf E cfg st pkg).poses ≠ [] ∧
    (undistort pf E cfg st pkg).poses.head? =
      some ⟨0, st.last_acc, st.last_gyro, st.kf.x.vel, st.kf.x.pos, st.kf.x.rot⟩ ∧
    (undistort pf E cfg st pkg).poses.map PoseSample.offset =
      0 :: ((st.last_imu :: pkg.imus).zip pkg.imus).filterMap
        (fun ht => if ht.2.timestamp < st.last_end_time then none
                   else some (ht.2.timestamp - pkg.cloud_start_time)) ∧
    (undistort pf E cfg st pkg).poses.length =
      (undistort pf E cfg st pkg).calls.length + 1 ∧
    ((undistort pf E cfg st pkg).poses.map PoseSample.offset).Pairwise (· ≤ ·) := by
  have hoff : (undistort pf E cfg st pkg).poses.map PoseSample.offset =
      0 :: ((st.last_imu :: pkg.imus).zip pkg.imus).filterMap
        (fun ht => if ht.2.timestamp < st.last_end_time then none
                   else some (ht.2.timestamp - pkg.cloud_start_time)) := by
    rw [undistort_poses, foldl_offsets]
    rfl
  obtain ⟨r, hpref⟩ := foldl_poses_prefix pf (mQ cfg) st.last_end_time
    pkg.cloud_start_time ((st.last_imu :: pkg.imus).zip pkg.imus)
    ⟨st.kf, st.last_acc, st.last_gyro,
     [⟨0, st.last_acc, st.last_gyro, st.kf.x.vel, st.kf.x.pos, st.kf.x.rot⟩],
     ⟨0, 0⟩, []⟩
  rw [← undistort_poses pf E cfg st pkg] at hpref
  refine ⟨?_, ?_, hoff, ?_, ?_⟩
  · rw [hpref]
    simp
  · rw [hpref]
    rfl
  · have hlen := foldl_lengths pf (mQ cfg) st.last_end_time pkg.cloud_start_time
      ((st.last_imu :: pkg.imus).zip pkg.imus)
      ⟨st.kf, st.last_acc, st.last_gyro,
       [⟨0, st.last_acc, st.last_gyro, st.kf.x.vel, st.kf.x.pos, st.kf.x.rot⟩],
       ⟨0, 0⟩, []⟩
    rw [← undistort_poses pf E cfg st pkg, ← undistort_calls_foldl pf E cfg st pkg]
      at hlen
    simpa using hlen
  · haveI : IsTrans IMUData (fun a b : IMUData => a.timestamp < b.timestamp) :=
      ⟨fun _ _ _ h1 h2 => lt_trans h1 h2⟩
    have hpw : List.Pairwise (fun a b : IMUData => a.timestamp < b.timestamp)
        (st.last_imu :: pkg.imus) := List.chain'_iff_pairwise.mp hchain
    have hpwt : List.Pairwise (fun a b : IMUData => a.timestamp < b.timestamp)
        pkg.imus := (List.pairwise_cons.mp hpw).2
    have hmap : ((st.last_imu :: pkg.imus).zip pkg.imus).map Prod.snd = pkg.imus :=
      List.map_snd_zip _ _ (by simp)
    have hpairs : List.Pairwise
        (fun a b : IMUData × IMUData => a.2.timestamp < b.2.timestamp)
        ((st.last_imu :: pkg.imus).zip pkg.imus) :=
      (@List.pairwise_map (IMUData × IMUData) IMUData Prod.snd
        (fun a b => a.timestamp < b.timestamp) _).mp (by rw [hmap]; exact hpwt)
    have hkept : (((st.last_imu :: pkg.imus).zip pkg.imus).filterMap
        (fun ht => if ht.2.timestamp < st.last_end_time then none
                   else some (ht.2.timestamp - pkg.cloud_start_time))).Pairwise
        ((· ≤ ·) : ℚ → ℚ → Prop) := by
      rw [List.pairwise_filterMap]
      refine hpairs.imp ?_
      intro a b hab x hx y hy
      by_cases ha : a.2.timestamp < st.last_end_time
      · rw [if_pos ha] at hx
        simp at hx
      · rw [if_neg ha] at hx
        by_cases hb : b.2.timestamp < st.last_end_time
        · rw [if_pos hb] at hy
          simp at hy
        · rw [if_neg hb] at hy
          simp only [Option.mem_def, Option.some.injEq] at hx hy
          subst hx
          subst hy
          exact sub_le_sub_right (le_of_lt hab) _
    have hmem0 : ∀ x ∈ (((st.last_imu :: pkg.imus).zip pkg.imus).filterMap
        (fun ht => if ht.2.timestamp < st.last_end_time then none
                   else some (ht.2.timestamp - pkg.cloud_start_time))),
        (0 : ℚ) ≤ x := by
      intro x hx
      obtain ⟨ht, hht, hfx⟩ := List.mem_filterMap.mp hx
      by_cases hskip : ht.2.timestamp < st.last_end_time
      · rw [if_pos hskip] at hfx
        cases hfx
      · rw [if_neg hskip] at hfx
        rw [← Option.some.inj hfx]
        exact sub_nonneg.mpr (le_trans hstart (not_lt.mp hskip))
    rw [hoff]
    exact List.pairwise_cons.mpr ⟨hmem0, hkept⟩

/-! ### Concrete instances used by the closed theorems below -/

/-- A concrete prediction function: the estimator is left unchanged (zero
process noise, zero true motion). -/
def pfId : PredictFn := fun kf _ _ _ => kf

/-- A concrete rotational exponential: constantly the identity rotation. -/
def E0 : SO3Exp := fun _ => 1

/-- A concrete shortest-arc rotation function: constantly the identity. -/
def ftv0 : Vec3 → Vec3 → Mat3 := fun _ _ => 1

/-- An estimator at rest: identity rotation, all vectors zero, identity
extrinsic rotation, identity covariance. -/
def kf0 : KF := ⟨⟨1, 0, 0, 0, 0, 0, 1, 0⟩, 1⟩

/-- An estimator moving with velocity `(1,0,0)`, otherwise like `kf0`. -/
def kfV : KF := ⟨⟨1, 0, ![1, 0, 0], 0, 0, 0, 1, 0⟩, 1⟩

/-- A configuration with threshold 1 and the no-align gravity policy. -/
def cfgW : Config := ⟨1, 1, 1, 1, 1, false, 1, 0⟩

/-- A stationary sample whose accelerometer reads `(0,0,-10)` (the input the
claim C4 posits, with `g = 10`). -/
def d4 : IMUData := ⟨0, ![0, 0, -10], 0⟩

/-- Cross-call state at rest with anchor at time 0. -/
def st3 : ProcState := ⟨⟨0, 0, 0⟩, 0, 0, 0, kf0⟩

/-- A batch with one inertial sample and an empty scan. -/
def pkg3 : SyncPackage := ⟨[⟨1/10, 0, 0⟩], [], 0, 1/5⟩

/-- Like `pkg3` but with a non-empty scan. -/
def pkg3w : SyncPackage := ⟨[⟨1/10, 0, 0⟩], [⟨1, 2, 3, 250⟩], 0, 1/5⟩

/-- Cross-call state moving at velocity `(1,0,0)` with anchor at time 0. -/
def st10 : ProcState := ⟨⟨0, 0, 0⟩, 0, 0, 0, kfV⟩

/-- A batch with two inertial samples at 0.1 s and 0.2 s and a single scan
point whose offset (250 ms) exceeds every pose-cache offset. -/
def pkg10 : SyncPackage := ⟨[⟨1/10, 0, 0⟩, ⟨1/5, 0, 0⟩], [⟨0, 0, 0, 250⟩], 0, 1/4⟩

/-- The three pose-cache entries `undistort` builds for `st10`/`pkg10`. -/
def cex0 : PoseSample := ⟨0, 0, 0, ![1, 0, 0], 0, 1⟩

/-- Second pose-cache entry for `st10`/`pkg10` (offset 0.1 s). -/
def cex1 : PoseSample := ⟨1/10, 0, 0, ![1, 0, 0], 0, 1⟩

/-- Third pose-cache entry for `st10`/`pkg10` (offset 0.2 s). -/
def cex2 : PoseSample := ⟨1/5, 0, 0, ![1, 0, 0], 0, 1⟩

/-- An end pose with identity rotations and zero translations. -/
def epW : EndPose := ⟨1, 0, 1, 0⟩

/-- A pose-cache entry at offset 0, fully at rest. -/
def poseW0 : PoseSample := ⟨0, 0, 0, 0, 0, 1⟩

/-- A pose-cache entry at offset 0.1 s, fully at rest. -/
def poseW1 : PoseSample := ⟨1/10, 0, 0, 0, 0, 1⟩

/-- A scan point at offset 250 ms. -/
def ptW : PointType := ⟨1, 2, 3, 250⟩

/-- A scan point at offset −1 ms (at or before every pose-cache offset). -/
def pt8 : PointType := ⟨5, 6, 7, -1⟩

/-! ### Remaining claim theorems and the closed instances -/

/-- Claim C10: for some inputs the earliest scan point is overwritten more
than once in a single `undistort` call.  With `st10`/`pkg10` the pose cache
has three entries, the single point's offset (0.25 s) exceeds both interval
heads' offsets, and after the inner walk breaks at the first point inside the
later interval, the earlier interval re-enters at the same point: the output
is the compensation applied twice, and differs from either single
application. -/
theorem c10_double_overwrite :
    (undistort pfId E0 cfgW st10 pkg10).poses = [cex0, cex1, cex2] ∧
    (undistort pfId E0 cfgW st10 pkg10).cloudOut =
      some [pointCompensate E0 (undistort pfId E0 cfgW st10 pkg10).endPose cex0 cex1
        (pointCompensate E0 (undistort pfId E0 cfgW st10 pkg10).endPose cex1 cex2
          ⟨0, 0, 0, 250⟩)] ∧
    (undistort pfId E0 cfgW st10 pkg10).cloudOut ≠
      some [pointCompensate E0 (undistort pfId E0 cfgW st10 pkg10).endPose cex1 cex2
        ⟨0, 0, 0, 250⟩] ∧
    (undistort pfId E0 cfgW st10 pkg10).cloudOut ≠
      some [pointCompensate E0 (undistort pfId E0 cfgW st10 pkg10).endPose cex0 cex1
        ⟨0, 0, 0, 250⟩] := by decide

/-- Claim C3 counterexample: with an empty scan and one unskipped inertial
pair, the deskew inner loop's first condition check reads through
`points.end() - 1` of an empty point vector — an out-of-bounds access,
modelled as `cloudOut = none`.  So `undistort` as written is not guarded
against empty scans. -/
theorem c3_cex : (undistort pfId E0 cfgW st3 pkg3).cloudOut = none := by decide

/-- Claim C4 counterexample: on the claim's stationary input with
acceleration `(0,0,-g)` (here `g = 10`), the no-align branch seeds gravity to
the negated mean acceleration `(0,0,+10)`, not `(0,0,-10)` as the claim
states; gyro bias and attitude do match the claim. -/
theorem c4_cex :
    (imuInit ftv0 cfgW [] kf0 [d4]).ready = true ∧
    (imuInit ftv0 cfgW [] kf0 [d4]).kf.x.bg = 0 ∧
    (imuInit ftv0 cfgW [] kf0 [d4]).kf.x.rot = 1 ∧
    (imuInit ftv0 cfgW [] kf0 [d4]).kf.x.g = ![0, 0, 10] ∧
    ¬ (imuInit ftv0 cfgW [] kf0 [d4]).kf.x.g = ![0, 0, -10] := by decide

/-- Witness for C1 at a concrete consumed point. -/
theorem c1_witness :
    innerWalk E0 epW poseW1 poseW0 0 [ptW] = some ([ptW], 0) ∧
    (([ptW] : List PointType), 0).1[0]? =
      some (pointCompensate E0 epW poseW1 poseW0 ptW) := by
  refine ⟨by decide, ?_⟩
  have hcons : consumedIdx poseW1 [ptW] 0 0 := by
    refine ⟨le_refl 0, ?_⟩
    intro i h1 h2 q hq
    have hi : i = 0 := Nat.le_zero.mp h2
    subst hi
    simp only [List.getElem?_cons_zero, Option.some.injEq] at hq
    subst hq
    decide
  exact (c1_compensation_formula E0 epW poseW1 poseW0 0 [ptW] ([ptW], 0) 0 ptW
    (by decide) rfl).1 hcons

/-- Witness for C3 (amended) on a non-empty scan. -/
theorem c3_witness : ((undistort pfId E0 cfgW st3 pkg3w).cloudOut).isSome :=
  c3_safety pfId E0 cfgW st3 pkg3w (Or.inl (by decide))

/-- Witness for C4 (amended) at the concrete stationary input. -/
theorem c4_witness : (imuInit ftv0 cfgW [] kf0 [d4]).kf.x.g = ![0, 0, 10] :=
  (c4_noalign_seed ftv0 cfgW [] [d4] kf0 10 rfl rfl (by decide) (by decide)
    (by decide) (by decide)).2.2.1

/-- Witness for C5 at a concrete strictly increasing window. -/
theorem c5_witness : 0 ≤ (undistort pfId E0 cfgW st3 pkg10).tailCall.2 :=
  (c5_dt_nonneg pfId E0 cfgW st3 pkg10
    (by simp [st3, pkg10, List.chain'_cons]; norm_num) (by decide)).2

/-- Witness for C6 at a concrete strictly increasing window. -/
theorem c6_witness :
    ((undistort pfId E0 cfgW st3 pkg10).poses.map PoseSample.offset).Pairwise
      (· ≤ ·) :=
  (c6_pose_cache pfId E0 cfgW st3 pkg10
    (by simp [st3, pkg10, List.chain'_cons]; norm_num) (by decide)).2.2.2.2

/-- Witness for C7: a sub-threshold call leaves the estimator unchanged. -/
theorem c7_witness : (imuInit ftv0 cfgW [] kf0 []).kf = kf0 :=
  (c7_init_readiness ftv0 cfgW [] kf0 []).2 (by decide)

/-- Witness for C8: a point at offset −1 ms survives the deskew unchanged. -/
theorem c8_witness : ([pt8] : List PointType)[0]? = some pt8 :=
  c8_early_points_unchanged E0 epW poseW0 [poseW1] [pt8] [pt8] 0 pt8
    (by decide) rfl (by decide) (by decide)

/-- Witness for C9 at the concrete deskewed output of `st10`/`pkg10`. -/
theorem c9_witness : ([(⟨2/5, 0, 0, 250⟩ : PointType)]).Pairwise curvLe :=
  ((c9_sorted_cloud pfId E0 cfgW st10 pkg10).2.2 [⟨2/5, 0, 0, 250⟩]
    (by decide)).2

end Livo
